import Mathlib

/-!
Verification of the nanoclaw message-bridge core against its specification.

The definitions below are a shallow embedding of the TypeScript source:

* `src/types.ts` — the data model (attachments, canonical messages,
  registered groups, IPC component descriptions, the channel contract);
* `src/router.ts` — `escapeXml`, `formatMessages`, `stripInternalTags`,
  `routeOutbound`, `routeFile`, `collectAttachments`;
* `src/channels/discord.ts` — the Discord channel adapter: the
  `MessageCreate` and `InteractionCreate` handlers, the attachment
  download loop, and the send-side operations.

JS strings are modelled as `String`/`List Char`; JS `undefined`/`null`
option fields as `Option`; falsy-string defaulting (`a || b`) as `jsOr`;
effectful operations return their observable platform calls as data.
-/

set_option maxHeartbeats 1000000

namespace Nanoclaw

/-! ## Data model (src/types.ts) -/

/-- `MessageAttachment` from types.ts. -/
structure MessageAttachment where
  filename : String
  path : String
  mimeType : String
  size : Nat
  isImage : Bool
deriving DecidableEq, Repr

/-- `NewMessage` from types.ts (the canonical message record). -/
structure NewMessage where
  id : String
  chat_jid : String
  sender : String
  sender_name : String
  content : String
  timestamp : String
  is_from_me : Option Bool := none
  is_bot_message : Option Bool := none
  attachments : Option (List MessageAttachment) := none
deriving DecidableEq, Repr

/-- `AdditionalMount` from types.ts. -/
structure AdditionalMount where
  hostPath : String
  containerPath : Option String := none
  readonlyFlag : Option Bool := none
deriving DecidableEq, Repr

/--`ContainerConfig` from types.ts. -/
structure ContainerConfig where
  additionalMounts : Option (List AdditionalMount) := none
  timeout : Option Nat := none
deriving DecidableEq, Repr

/-- `RegisteredGroup` from types.ts. -/
structure RegisteredGroup where
  name : String
  folder : String
  trigger : String
  added_at : String
  containerConfig : Option ContainerConfig := none
  requiresTrigger : Option Bool := none
deriving DecidableEq, Repr

/-! ## Router (src/router.ts) -/

/-- A channel as the router observes it: the two predicates consulted by
`routeOutbound`/`routeFile` (`ownsJid`, `isConnected`) plus whether the
optional `sendFile` capability is present, and the channel's name. -/
structure ChannelM where
  name : String
  owns : String → Bool
  connected : Bool
  hasSendFile : Bool

/-- The send operation a route resolves to.  `routeOutbound` forwards to
`sendMessage` (the `msg` form), `routeFile` to `sendFile` (the `file`
form); an `Except.error` models the thrown `Error`. -/
inductive SendAction where
  | msg (channelName jid text : String)
  | file (channelName jid filePath : String) (caption : Option String)
deriving DecidableEq, Repr

/-- `routeOutbound` from router.ts: find the first channel with
`ownsJid(jid) && isConnected()`, throw `No channel for JID` otherwise. -/
def routeOutbound (channels : List ChannelM) (jid text : String) :
    Except String SendAction :=
  match channels.find? (fun c => c.owns jid && c.connected) with
  | none => .error ("No channel for JID: " ++ jid)
  | some c => .ok (.msg c.name jid text)

/-- `routeFile` from router.ts: same selection as `routeOutbound`, then a
capability check on `sendFile` before forwarding. -/
def routeFile (channels : List ChannelM) (jid filePath : String)
    (caption : Option String) : Except String SendAction :=
  match channels.find? (fun c => c.owns jid && c.connected) with
  | none => .error ("No channel for JID: " ++ jid)
  | some c =>
    if !c.hasSendFile then
      .error ("Channel " ++ c.name ++ " does not support file sending")
    else
      .ok (.file c.name jid filePath caption)

/-! ## Attachment collector (src/router.ts, collectAttachments) -/

/-- The body of the inner loop of `collectAttachments`: skip an attachment
whose path was already seen, otherwise record the path and append. -/
def collectStep (acc : List String × List MessageAttachment)
    (att : MessageAttachment) : List String × List MessageAttachment :=
  if att.path ∈ acc.1 then acc else (att.path :: acc.1, acc.2 ++ [att])

/-- `collectAttachments` from router.ts: fold over the batch, skipping
messages with no attachment list, deduplicating by path with a seen-set. -/
def collectAttachments (messages : List NewMessage) : List MessageAttachment :=
  (messages.foldl
    (fun acc msg =>
      match msg.attachments with
      | none => acc
      | some atts => atts.foldl collectStep acc)
    ([], [])).2

/-- All attachments of a batch in encounter order (no deduplication):
the sequence the source's nested loops traverse. -/
def allAtts (messages : List NewMessage) : List MessageAttachment :=
  (messages.map (fun m => m.attachments.getD [])).flatten

/-- Reference recursion for first-occurrence deduplication, parameterised
by the set of already-seen paths. -/
def dedupFirst (seen : List String) : List MessageAttachment → List MessageAttachment
  | [] => []
  | a :: rest =>
    if a.path ∈ seen then dedupFirst seen rest
    else a :: dedupFirst (a.path :: seen) rest

/-- The seen-set after `dedupFirst` has traversed a list. -/
def afterSeen (seen : List String) : List MessageAttachment → List String
  | [] => seen
  | a :: rest =>
    if a.path ∈ seen then afterSeen seen rest
    else afterSeen (a.path :: seen) rest

theorem foldl_collectStep (l : List MessageAttachment) :
    ∀ (seen : List String) (out : List MessageAttachment),
      l.foldl collectStep (seen, out) = (afterSeen seen l, out ++ dedupFirst seen l) := by
  induction l with
  | nil => intro seen out; simp [afterSeen, dedupFirst]
  | cons a rest ih =>
    intro seen out
    by_cases h : a.path ∈ seen
    · simp [List.foldl_cons, collectStep, h, afterSeen, dedupFirst, ih]
    · simp [List.foldl_cons, collectStep, h, afterSeen, dedupFirst, ih]

theorem collectAttachments_eq (messages : List NewMessage) :
    collectAttachments messages = dedupFirst [] (allAtts messages) := by
  have main : ∀ (msgs : List NewMessage) (seen : List String) (out : List MessageAttachment),
      msgs.foldl
        (fun acc msg =>
          match msg.attachments with
          | none => acc
          | some atts => atts.foldl collectStep acc)
        (seen, out) =
      (afterSeen seen (allAtts msgs), out ++ dedupFirst seen (allAtts msgs)) := by
    intro msgs
    induction msgs with
    | nil => intro seen out; simp [allAtts, afterSeen, dedupFirst]
    | cons m rest ih =>
      intro seen out
      have hall : allAtts (m :: rest) = m.attachments.getD [] ++ allAtts rest := by
        simp [allAtts]
      cases hm : m.attachments with
      | none =>
        simp only [List.foldl_cons, hm]
        rw [ih seen out]
        simp [hall, hm, afterSeen, dedupFirst]
      | some atts =>
        simp only [List.foldl_cons, hm]
        rw [foldl_collectStep atts seen out, ih]
        have h1 : ∀ s l1 l2, afterSeen s (l1 ++ l2) = afterSeen (afterSeen s l1) l2 := by
          intro s l1
          induction l1 generalizing s with
          | nil => simp [afterSeen]
          | cons x xs ihx =>
            intro l2
            by_cases hx : x.path ∈ s <;> simp [afterSeen, hx, ihx]
        have h2 : ∀ s l1 l2, dedupFirst s (l1 ++ l2) =
            dedupFirst s l1 ++ dedupFirst (afterSeen s l1) l2 := by
          intro s l1
          induction l1 generalizing s with
          | nil => simp [afterSeen, dedupFirst]
          | cons x xs ihx =>
            intro l2
            by_cases hx : x.path ∈ s <;> simp [afterSeen, dedupFirst, hx, ihx]
        simp [hall, hm, h1, h2]
  unfold collectAttachments
  rw [main]
  simp

theorem dedupFirst_sublist (l : List MessageAttachment) :
    ∀ seen, List.Sublist (dedupFirst seen l) l := by
  induction l with
  | nil => intro seen; simp [dedupFirst]
  | cons a rest ih =>
    intro seen
    by_cases h : a.path ∈ seen
    · simp only [dedupFirst, if_pos h]
      exact List.Sublist.cons a (ih seen)
    · simp only [dedupFirst, if_neg h]
      exact List.Sublist.cons₂ a (ih (a.path :: seen))

theorem dedupFirst_not_seen (l : List MessageAttachment) :
    ∀ seen b, b ∈ dedupFirst seen l → b.path ∉ seen := by
  induction l with
  | nil => intro seen b hb; simp [dedupFirst] at hb
  | cons a rest ih =>
    intro seen b hb
    by_cases h : a.path ∈ seen
    · rw [dedupFirst, if_pos h] at hb
      exact ih seen b hb
    · rw [dedupFirst, if_neg h] at hb
      rcases List.mem_cons.mp hb with hb | hb
      · rw [hb]; exact h
      · have := ih (a.path :: seen) b hb
        intro hmem
        exact this (List.mem_cons_of_mem _ hmem)

theorem dedupFirst_nodup (l : List MessageAttachment) :
    ∀ seen, ((dedupFirst seen l).map (fun a => a.path)).Nodup := by
  induction l with
  | nil => intro seen; simp [dedupFirst]
  | cons a rest ih =>
    intro seen
    by_cases h : a.path ∈ seen
    · rw [dedupFirst, if_pos h]; exact ih seen
    · rw [dedupFirst, if_neg h]
      simp only [List.map_cons, List.nodup_cons]
      constructor
      · intro hmem
        rcases List.mem_map.mp hmem with ⟨b, hb, hpath⟩
        have := dedupFirst_not_seen rest (a.path :: seen) b hb
        exact this (hpath ▸ List.mem_cons_self _ _)
      · exact ih (a.path :: seen)

theorem dedupFirst_covers (l : List MessageAttachment) :
    ∀ seen x, x ∈ l → x.path ∈ seen ∨ ∃ b ∈ dedupFirst seen l, b.path = x.path := by
  induction l with
  | nil => intro seen x hx; simp at hx
  | cons a rest ih =>
    intro seen x hx
    by_cases h : a.path ∈ seen
    · rw [dedupFirst, if_pos h]
      rcases List.mem_cons.mp hx with hx | hx
      · left; rw [hx]; exact h
      · exact ih seen x hx
    · rw [dedupFirst, if_neg h]
      rcases List.mem_cons.mp hx with hx | hx
      · right; exact ⟨a, List.mem_cons_self _ _, by rw [hx]⟩
      · rcases ih (a.path :: seen) x hx with hmem | ⟨b, hb, hpath⟩
        · rcases List.mem_cons.mp hmem with heq | hmem'
          · right; exact ⟨a, List.mem_cons_self _ _, heq.symm⟩
          · left; exact hmem'
        · right; exact ⟨b, List.mem_cons_of_mem _ hb, hpath⟩

theorem dedupFirst_first_occurrence (l : List MessageAttachment) :
    ∀ seen b, b ∈ dedupFirst seen l →
      ∃ pre post, l = pre ++ b :: post ∧ ∀ c ∈ pre, c.path ≠ b.path := by
  induction l with
  | nil => intro seen b hb; simp [dedupFirst] at hb
  | cons a rest ih =>
    intro seen b hb
    by_cases h : a.path ∈ seen
    · rw [dedupFirst, if_pos h] at hb
      rcases ih seen b hb with ⟨pre, post, heq, hpre⟩
      refine ⟨a :: pre, post, by rw [heq]; rfl, ?_⟩
      intro c hc
      rcases List.mem_cons.mp hc with hc | hc
      · rw [hc]
        have hnotseen := dedupFirst_not_seen rest seen b hb
        intro hcontra
        exact hnotseen (hcontra ▸ h)
      · exact hpre c hc
    · rw [dedupFirst, if_neg h] at hb
      rcases List.mem_cons.mp hb with hb | hb
      · exact ⟨[], rest, by rw [hb]; rfl, by intro c hc; simp at hc⟩
      · rcases ih (a.path :: seen) b hb with ⟨pre, post, heq, hpre⟩
        refine ⟨a :: pre, post, by rw [heq]; rfl, ?_⟩
        intro c hc
        rcases List.mem_cons.mp hc with hc | hc
        · rw [hc]
          have hnotseen := dedupFirst_not_seen rest (a.path :: seen) b hb
          intro hcontra
          exact hnotseen (hcontra ▸ List.mem_cons_self _ _)
        · exact hpre c hc

theorem dedupFirst_id (l : List MessageAttachment) :
    ∀ seen, (l.map (fun a => a.path)).Nodup → (∀ x ∈ l, x.path ∉ seen) →
      dedupFirst seen l = l := by
  induction l with
  | nil => intro seen _ _; simp [dedupFirst]
  | cons a rest ih =>
    intro seen hnodup hnotseen
    rw [List.map_cons, List.nodup_cons] at hnodup
    have ha : a.path ∉ seen := hnotseen a (List.mem_cons_self _ _)
    rw [dedupFirst, if_neg ha]
    congr 1
    apply ih
    · exact hnodup.2
    · intro x hx
      intro hmem
      rcases List.mem_cons.mp hmem with heq | hmem'
      · exact hnodup.1 (heq ▸ List.mem_map.mpr ⟨x, hx, rfl⟩)
      · exact hnotseen x (List.mem_cons_of_mem _ hx) hmem'

theorem find?_first {α : Type} (p : α → Bool) (pre : List α) (c : α) (post : List α)
    (hpre : ∀ d ∈ pre, p d = false) (hc : p c = true) :
    (pre ++ c :: post).find? p = some c := by
  induction pre with
  | nil => simp [List.find?_cons, hc]
  | cons d ds ih =>
    have hd := hpre d (List.mem_cons_self _ _)
    simp only [List.cons_append, List.find?_cons, hd]
    exact ih (fun e he => hpre e (List.mem_cons_of_mem _ he))

/-- Claim C4: `routeOutbound` selects the first channel in the collection
for which both `ownsJid(address)` and `isConnected()` hold and forwards the
send to it; if no channel satisfies both — including when a channel owns
the address but is disconnected — it fails with the no-channel-for-address
error and no send is produced. -/
theorem routeOutbound_selects_first_live_owner
    (channels : List ChannelM) (jid text : String) :
    ((∀ c ∈ channels, ¬(c.owns jid = true ∧ c.connected = true)) →
        routeOutbound channels jid text = .error ("No channel for JID: " ++ jid) ∧
        ∀ a, routeOutbound channels jid text ≠ .ok a) ∧
    (∀ pre c post, channels = pre ++ c :: post →
        (∀ d ∈ pre, ¬(d.owns jid = true ∧ d.connected = true)) →
        c.owns jid = true → c.connected = true →
        routeOutbound channels jid text = .ok (.msg c.name jid text)) := by
  constructor
  · intro hnone
    have hfind : channels.find? (fun c => c.owns jid && c.connected) = none := by
      rw [List.find?_eq_none]
      intro c hc
      have := hnone c hc
      cases ho : c.owns jid <;> cases hco : c.connected <;> simp_all
    constructor
    · rw [routeOutbound, hfind]
    · intro a
      rw [routeOutbound, hfind]
      simp
  · intro pre c post heq hpre howns hconn
    have hfind : channels.find? (fun c => c.owns jid && c.connected) = some c := by
      rw [heq]
      apply find?_first
      · intro d hd
        have := hpre d hd
        cases ho : d.owns jid <;> cases hco : d.connected <;> simp_all
      · simp [howns, hconn]
    rw [routeOutbound, hfind]

/-- Claim C5: `routeFile` performs the same first-owning-and-connected
selection as `routeOutbound`; when the selected channel lacks the optional
file-sending capability it fails with the capability-unsupported error and
produces no send action at all, and under no circumstances does it produce
a plain-text `sendMessage` action. -/
theorem routeFile_capability_unsupported
    (channels : List ChannelM) (jid filePath : String) (caption : Option String) :
    (∀ pre c post, channels = pre ++ c :: post →
        (∀ d ∈ pre, ¬(d.owns jid = true ∧ d.connected = true)) →
        c.owns jid = true → c.connected = true →
        ((c.hasSendFile = false →
            routeFile channels jid filePath caption =
              .error ("Channel " ++ c.name ++ " does not support file sending") ∧
            ∀ a, routeFile channels jid filePath caption ≠ .ok a) ∧
         (c.hasSendFile = true →
            routeFile channels jid filePath caption =
              .ok (.file c.name jid filePath caption)))) ∧
    ((∀ c ∈ channels, ¬(c.owns jid = true ∧ c.connected = true)) →
        routeFile channels jid filePath caption =
          .error ("No channel for JID: " ++ jid)) ∧
    (∀ n j t, routeFile channels jid filePath caption ≠ .ok (.msg n j t)) := by
  refine ⟨?_, ?_, ?_⟩
  · intro pre c post heq hpre howns hconn
    have hfind : channels.find? (fun c => c.owns jid && c.connected) = some c := by
      rw [heq]
      apply find?_first
      · intro d hd
        have := hpre d hd
        cases ho : d.owns jid <;> cases hco : d.connected <;> simp_all
      · simp [howns, hconn]
    constructor
    · intro hno
      rw [routeFile, hfind]
      simp [hno]
    · intro hyes
      rw [routeFile, hfind]
      simp [hyes]
  · intro hnone
    have hfind : channels.find? (fun c => c.owns jid && c.connected) = none := by
      rw [List.find?_eq_none]
      intro c hc
      have := hnone c hc
      cases ho : c.owns jid <;> cases hco : c.connected <;> simp_all
    rw [routeFile, hfind]
  · intro n j t
    rw [routeFile]
    cases hfind : channels.find? (fun c => c.owns jid && c.connected) with
    | none => simp
    | some c =>
      by_cases hf : c.hasSendFile <;> simp [hf]

/-- Concrete attachments for the `[A, B, A, C]` example of claim C6.  The
second occurrence of path `A` carries a different filename, so the example
also shows that the first occurrence is the one kept. -/
def attA : MessageAttachment := ⟨"a.png", "A", "image/png", 10, true⟩

def attA2 : MessageAttachment := ⟨"a-again.png", "A", "image/png", 11, true⟩

def attB : MessageAttachment := ⟨"b.pdf", "B", "application/pdf", 20, false⟩

def attC : MessageAttachment := ⟨"c.txt", "C", "text/plain", 30, false⟩

def msgWithAB : NewMessage :=
  { id := "m1", chat_jid := "dc:1", sender := "u1", sender_name := "Alice",
    content := "first", timestamp := "t1", attachments := some [attA, attB] }

def msgWithAC : NewMessage :=
  { id := "m2", chat_jid := "dc:1", sender := "u2", sender_name := "Bob",
    content := "second", timestamp := "t2", attachments := some [attA2, attC] }

/-- Claim C6: `collectAttachments` returns the batch's attachments with
duplicate paths removed: the result has pairwise-distinct paths, is a
subsequence of the attachments in encounter order, covers every path of
the batch, keeps exactly the first occurrence of each path, is the
identity on batches whose paths are already pairwise distinct, and maps
the paths `[A, B, A, C]` to `[A, B, C]`. -/
theorem collectAttachments_dedup_spec (messages : List NewMessage) :
    ((collectAttachments messages).map (fun a => a.path)).Nodup ∧
    List.Sublist (collectAttachments messages) (allAtts messages) ∧
    (∀ x ∈ allAtts messages, ∃ b ∈ collectAttachments messages, b.path = x.path) ∧
    (∀ b ∈ collectAttachments messages,
        ∃ pre post, allAtts messages = pre ++ b :: post ∧ ∀ c ∈ pre, c.path ≠ b.path) ∧
    (((allAtts messages).map (fun a => a.path)).Nodup →
        collectAttachments messages = allAtts messages) ∧
    collectAttachments [msgWithAB, msgWithAC] = [attA, attB, attC] := by
  rw [collectAttachments_eq]
  refine ⟨dedupFirst_nodup _ _, dedupFirst_sublist _ _, ?_, ?_, ?_, ?_⟩
  · intro x hx
    rcases dedupFirst_covers (allAtts messages) [] x hx with h | h
    · simp at h
    · exact h
  · exact fun b hb => dedupFirst_first_occurrence _ [] b hb
  · intro hnodup
    exact dedupFirst_id _ [] hnodup (by intro x _ h; simp at h)
  · decide

/-! ## Outbound sanitizer (src/router.ts, stripInternalTags)

`stripInternalTags` is `text.replace(/<internal>[\s\S]*?<\/internal>/g, '').trim()`:
a left-to-right scan; at each position, if the open marker matches here and a
close marker occurs later, the shortest such span is removed and the scan
resumes after it; otherwise the scan advances one character.  Then JS `trim`. -/

/-- Does the pattern (first argument) begin the list (second argument)? -/
def startsWithSeq : List Char → List Char → Bool
  | [], _ => true
  | _ :: _, [] => false
  | p :: ps, c :: cs => if p = c then startsWithSeq ps cs else false

/-- The reserved open marker. -/
def internalOpen : List Char := "<internal>".data

/-- The reserved close marker. -/
def internalClose : List Char := "</internal>".data

/-- Scan for the first occurrence of the close marker; on a hit, return the
text after it (the lazy `[\s\S]*?` stops at the first close marker). -/
def dropAfterClose : List Char → Option (List Char)
  | [] => none
  | c :: cs =>
    if startsWithSeq internalClose (c :: cs) then some ((c :: cs).drop internalClose.length)
    else dropAfterClose cs

theorem dropAfterClose_length :
    ∀ (l r : List Char), dropAfterClose l = some r → r.length < l.length := by
  intro l
  induction l with
  | nil => intro r h; simp [dropAfterClose] at h
  | cons c cs ih =>
    intro r h
    rw [dropAfterClose] at h
    by_cases hs : startsWithSeq internalClose (c :: cs) = true
    · rw [if_pos hs] at h
      injection h with h
      rw [← h]
      simp [internalClose]
      omega
    · rw [if_neg hs] at h
      have := ih r h
      simp
      omega

/-- The global regex replace of `/<internal>[\s\S]*?<\/internal>/g` by the
empty string: remove each leftmost-shortest marked span, scanning left to
right. -/
def removeSpans (l : List Char) : List Char :=
  match l with
  | [] => []
  | c :: cs =>
    if startsWithSeq internalOpen (c :: cs) then
      match h : dropAfterClose ((c :: cs).drop internalOpen.length) with
      | some rest => removeSpans rest
      | none => c :: removeSpans cs
    else c :: removeSpans cs
termination_by l.length
decreasing_by
  · have h1 := dropAfterClose_length _ _ h
    have h2 : ((c :: cs).drop internalOpen.length).length ≤ cs.length := by
      simp [internalOpen]
    simp only [List.length_cons]
    omega
  · simp
  · simp

/-- The characters JS `String.prototype.trim` removes: ECMAScript
WhiteSpace and LineTerminator code points. -/
def isJsWhitespace (c : Char) : Bool :=
  c ∈ ([' ', '\t', '\n', '\r', '\x0b', '\x0c', '\u00A0', '\uFEFF',
        '\u1680', '\u2000', '\u2001', '\u2002', '\u2003', '\u2004', '\u2005',
        '\u2006', '\u2007', '\u2008', '\u2009', '\u200A', '\u2028', '\u2029',
        '\u202F', '\u205F', '\u3000'] : List Char)

/-- JS `String.prototype.trim` on a character list. -/
def jsTrim (l : List Char) : List Char :=
  ((l.dropWhile isJsWhitespace).reverse.dropWhile isJsWhitespace).reverse

/-- `stripInternalTags` from router.ts. -/
def stripInternalTags (s : String) : String :=
  ⟨jsTrim (removeSpans s.data)⟩

theorem startsWithSeq_append_self :
    ∀ (p rest : List Char), startsWithSeq p (p ++ rest) = true := by
  intro p
  induction p with
  | nil => intro rest; rfl
  | cons c cs ih => intro rest; simp [startsWithSeq, ih]

theorem startsWithSeq_false_of_ne_head (p : List Char) (hp : p ≠ [])
    (c : Char) (cs : List Char) (hne : c ≠ p.headI) :
    startsWithSeq p (c :: cs) = false := by
  cases p with
  | nil => exact absurd rfl hp
  | cons q qs =>
    simp only [List.headI] at hne
    rw [startsWithSeq, if_neg (fun h => hne h.symm)]

theorem dropAfterClose_cons_ne (c : Char) (cs : List Char) (hc : c ≠ '<') :
    dropAfterClose (c :: cs) = dropAfterClose cs := by
  have hs : startsWithSeq internalClose (c :: cs) = false := by
    apply startsWithSeq_false_of_ne_head
    · simp [internalClose]
    · simpa [internalClose] using hc
  rw [dropAfterClose, if_neg (by simp [hs])]

theorem dropAfterClose_here (post : List Char) :
    dropAfterClose (internalClose ++ post) = some post := by
  have hshape : (internalClose ++ post : List Char) =
      '<' :: ("/internal>".data ++ post) := rfl
  rw [hshape, dropAfterClose]
  have hs : startsWithSeq internalClose ('<' :: ("/internal>".data ++ post)) = true := by
    rw [← hshape]
    exact startsWithSeq_append_self _ _
  rw [if_pos hs]
  have hdrop : List.drop internalClose.length ('<' :: ("/internal>".data ++ post)) = post := by
    rw [← hshape]
    exact List.drop_left _ _
  rw [hdrop]

theorem dropAfterClose_of_clean (mid : List Char) (hmid : ∀ c ∈ mid, c ≠ '<')
    (post : List Char) :
    dropAfterClose (mid ++ internalClose ++ post) = some post := by
  induction mid with
  | nil => simpa using dropAfterClose_here post
  | cons c cs ih =>
    have hc : c ≠ '<' := hmid c (List.mem_cons_self _ _)
    simp only [List.cons_append]
    rw [dropAfterClose_cons_ne c _ hc]
    exact ih (fun d hd => hmid d (List.mem_cons_of_mem _ hd))

theorem removeSpans_cons_ne (c : Char) (cs : List Char) (hc : c ≠ '<') :
    removeSpans (c :: cs) = c :: removeSpans cs := by
  have hs : startsWithSeq internalOpen (c :: cs) = false := by
    apply startsWithSeq_false_of_ne_head
    · simp [internalOpen]
    · simpa [internalOpen] using hc
  rw [removeSpans, if_neg (by simp [hs])]

theorem removeSpans_of_no_lt (l : List Char) (hl : ∀ c ∈ l, c ≠ '<') :
    removeSpans l = l := by
  induction l with
  | nil => rw [removeSpans]
  | cons c cs ih =>
    rw [removeSpans_cons_ne c cs (hl c (List.mem_cons_self _ _))]
    rw [ih (fun d hd => hl d (List.mem_cons_of_mem _ hd))]

theorem removeSpans_head_span (mid post : List Char) (hmid : ∀ c ∈ mid, c ≠ '<') :
    removeSpans (internalOpen ++ mid ++ internalClose ++ post) = removeSpans post := by
  have hshape : (internalOpen ++ mid ++ internalClose ++ post : List Char) =
      '<' :: ("internal>".data ++ (mid ++ internalClose ++ post)) := by
    simp [internalOpen]
  rw [hshape, removeSpans]
  have hopen : startsWithSeq internalOpen
      ('<' :: ("internal>".data ++ (mid ++ internalClose ++ post))) = true := by
    have h2 : ('<' :: ("internal>".data ++ (mid ++ internalClose ++ post)) : List Char) =
        internalOpen ++ (mid ++ internalClose ++ post) := rfl
    rw [h2]
    exact startsWithSeq_append_self _ _
  rw [if_pos hopen]
  have heval : List.drop internalOpen.length
      ('<' :: ("internal>".data ++ (mid ++ internalClose ++ post))) =
      mid ++ internalClose ++ post := by
    have h2 : ('<' :: ("internal>".data ++ (mid ++ internalClose ++ post)) : List Char) =
        internalOpen ++ (mid ++ internalClose ++ post) := rfl
    rw [h2, List.drop_left]
  split
  · next rest hrest =>
    rw [heval, dropAfterClose_of_clean mid hmid post] at hrest
    injection hrest with hrest
    rw [hrest]
  · next hrest =>
    rw [heval, dropAfterClose_of_clean mid hmid post] at hrest
    simp at hrest

theorem removeSpans_span (pre mid post : List Char)
    (hpre : ∀ c ∈ pre, c ≠ '<') (hmid : ∀ c ∈ mid, c ≠ '<') :
    removeSpans (pre ++ internalOpen ++ mid ++ internalClose ++ post) =
      pre ++ removeSpans post := by
  induction pre with
  | nil => simpa using removeSpans_head_span mid post hmid
  | cons c cs ih =>
    have hc : c ≠ '<' := hpre c (List.mem_cons_self _ _)
    simp only [List.cons_append]
    rw [removeSpans_cons_ne _ _ hc]
    rw [ih (fun d hd => hpre d (List.mem_cons_of_mem _ hd))]

/-- Claim C1: the outbound sanitizer removes every non-overlapping span
delimited by the `<internal>` open marker and `</internal>` close marker,
including its content, with non-greedy (shortest-match) semantics — the
span ends at the first close marker, whatever follows — and then trims
leading and trailing whitespace.  In particular
`"<internal>secret</internal>visible"` yields `"visible"` and an
all-internal string yields the empty string. -/
theorem stripInternalTags_spec (pre mid post : List Char)
    (hpre : ∀ c ∈ pre, c ≠ '<') (hmid : ∀ c ∈ mid, c ≠ '<') :
    removeSpans (pre ++ internalOpen ++ mid ++ internalClose ++ post) =
      pre ++ removeSpans post ∧
    stripInternalTags ⟨pre ++ internalOpen ++ mid ++ internalClose ++ post⟩ =
      ⟨jsTrim (pre ++ removeSpans post)⟩ ∧
    stripInternalTags "<internal>secret</internal>visible" = "visible" ∧
    stripInternalTags "<internal>secret</internal>" = "" ∧
    stripInternalTags " <internal>x</internal> hi " = "hi" := by
  have hmain := removeSpans_span pre mid post hpre hmid
  refine ⟨hmain, ?_, ?_, ?_, ?_⟩
  · show String.mk (jsTrim (removeSpans (pre ++ internalOpen ++ mid ++ internalClose ++ post))) = _
    rw [hmain]
  · show String.mk (jsTrim (removeSpans ("<internal>secret</internal>visible" : String).data)) = _
    have h1 : ("<internal>secret</internal>visible" : String).data =
        ([] : List Char) ++ internalOpen ++ "secret".data ++ internalClose ++ "visible".data := rfl
    rw [h1, removeSpans_span _ _ _ (by decide) (by decide),
      removeSpans_of_no_lt _ (by decide)]
    decide
  · show String.mk (jsTrim (removeSpans ("<internal>secret</internal>" : String).data)) = _
    have h1 : ("<internal>secret</internal>" : String).data =
        ([] : List Char) ++ internalOpen ++ "secret".data ++ internalClose ++ ([] : List Char) := rfl
    rw [h1, removeSpans_span _ _ _ (by decide) (by decide),
      removeSpans_of_no_lt _ (by decide)]
    decide
  · show String.mk (jsTrim (removeSpans (" <internal>x</internal> hi " : String).data)) = _
    have h1 : (" <internal>x</internal> hi " : String).data =
        ([' '] : List Char) ++ internalOpen ++ "x".data ++ internalClose ++ " hi ".data := rfl
    rw [h1, removeSpans_span _ _ _ (by decide) (by decide),
      removeSpans_of_no_lt _ (by decide)]
    decide

theorem stripInternalTags_spec_witness :
    removeSpans (([' '] : List Char) ++ internalOpen ++ "s".data ++ internalClose ++ "ok!".data) =
      [' '] ++ removeSpans "ok!".data :=
  (stripInternalTags_spec [' '] "s".data "ok!".data (by decide) (by decide)).1

/-! ## Context formatter (src/router.ts, escapeXml / formatMessages)

`escapeXml` is the chain of four global single-character replaces
`&`→`&amp;`, `<`→`&lt;`, `>`→`&gt;`, `"`→`&quot;` (after an early return
of `''` for the empty string); `formatMessages` wraps one
`<message sender="..." time="...">...</message>` line per message, joined
with newlines, in a `<messages>` envelope. -/

/-- Global replacement of one character by a string: the semantics of
JS `s.replace(/c/g, r)` for a single-character pattern. -/
def replaceChar (t : Char) (r : List Char) : List Char → List Char
  | [] => []
  | c :: cs => (if c = t then r else [c]) ++ replaceChar t r cs

/-- `escapeXml` from router.ts on a character list: the four chained
replaces, in source order. -/
def escapeXmlChars (l : List Char) : List Char :=
  replaceChar '"' "&quot;".data
    (replaceChar '>' "&gt;".data
      (replaceChar '<' "&lt;".data
        (replaceChar '&' "&amp;".data l)))

/-- `escapeXml` from router.ts (including the `if (!s) return ''` guard,
which is the identity on this code path). -/
def escapeXml (s : String) : String :=
  if s = "" then "" else ⟨escapeXmlChars s.data⟩

/-- One `<message .../>` line of `formatMessages`: the template literal
with escaped sender and body and the raw timestamp. -/
def messageLine (m : NewMessage) : List Char :=
  "<message sender=\"".data ++ (escapeXml m.sender_name).data ++ "\" time=\"".data ++
    m.timestamp.data ++ "\">".data ++ (escapeXml m.content).data ++ "</message>".data

/-- JS `Array.prototype.join('\n')` on character lists. -/
def joinLines : List (List Char) → List Char
  | [] => []
  | [l] => l
  | l :: l2 :: ls => l ++ '\n' :: joinLines (l2 :: ls)

/-- `formatMessages` from router.ts. -/
def formatMessages (messages : List NewMessage) : String :=
  ⟨"<messages>\n".data ++ joinLines (messages.map messageLine) ++ "\n</messages>".data⟩

/-- The per-character view of `escapeXmlChars`. -/
def escChar (c : Char) : List Char :=
  if c = '&' then "&amp;".data
  else if c = '<' then "&lt;".data
  else if c = '>' then "&gt;".data
  else if c = '"' then "&quot;".data
  else [c]

theorem replaceChar_append (t : Char) (r : List Char) :
    ∀ (a b : List Char), replaceChar t r (a ++ b) = replaceChar t r a ++ replaceChar t r b := by
  intro a
  induction a with
  | nil => intro b; rfl
  | cons c cs ih => intro b; simp [replaceChar, ih]

theorem replaceChar_of_not_mem (t : Char) (r : List Char) :
    ∀ (l : List Char), t ∉ l → replaceChar t r l = l := by
  intro l
  induction l with
  | nil => intro _; rfl
  | cons c cs ih =>
    intro h
    have hc : c ≠ t := fun hct => h (hct ▸ List.mem_cons_self _ _)
    simp [replaceChar, hc, ih (fun hm => h (List.mem_cons_of_mem _ hm))]

theorem escapeXmlChars_cons (c : Char) (cs : List Char) :
    escapeXmlChars (c :: cs) = escChar c ++ escapeXmlChars cs := by
  have step : replaceChar '&' "&amp;".data (c :: cs) =
      (if c = '&' then "&amp;".data else [c]) ++ replaceChar '&' "&amp;".data cs := rfl
  rw [escapeXmlChars, step, replaceChar_append, replaceChar_append, replaceChar_append]
  rw [← escapeXmlChars]
  congr 1
  by_cases h1 : c = '&'
  · subst h1
    simp only [if_pos rfl]
    decide
  · rw [if_neg h1]
    by_cases h2 : c = '<'
    · subst h2
      rw [escChar]
      decide
    · by_cases h3 : c = '>'
      · subst h3
        rw [escChar]
        decide
      · by_cases h4 : c = '"'
        · subst h4
          rw [escChar]
          decide
        · rw [escChar, if_neg h1, if_neg h2, if_neg h3, if_neg h4]
          have hm2 : ('<' : Char) ∉ [c] := by
            simp only [List.mem_singleton]
            exact fun h => h2 h.symm
          have hm3 : ('>' : Char) ∉ [c] := by
            simp only [List.mem_singleton]
            exact fun h => h3 h.symm
          have hm4 : ('"' : Char) ∉ [c] := by
            simp only [List.mem_singleton]
            exact fun h => h4 h.symm
          rw [replaceChar_of_not_mem _ _ _ hm2, replaceChar_of_not_mem _ _ _ hm3,
            replaceChar_of_not_mem _ _ _ hm4]

theorem escapeXmlChars_no_raw (l : List Char) :
    ∀ c ∈ escapeXmlChars l, c ≠ '<' ∧ c ≠ '>' ∧ c ≠ '"' := by
  induction l with
  | nil => intro c hc; simp [escapeXmlChars, replaceChar] at hc
  | cons x xs ih =>
    intro c hc
    rw [escapeXmlChars_cons] at hc
    rcases List.mem_append.mp hc with hc | hc
    · by_cases h1 : x = '&'
      · subst h1; simp [escChar] at hc; rcases hc with h | h | h | h | h <;> simp [h]
      · by_cases h2 : x = '<'
        · subst h2; simp [escChar] at hc
          rcases hc with h | h | h | h <;> simp [h]
        · by_cases h3 : x = '>'
          · subst h3; simp [escChar] at hc
            rcases hc with h | h | h | h <;> simp [h]
          · by_cases h4 : x = '"'
            · subst h4; simp [escChar] at hc
              rcases hc with h | h | h | h | h | h <;> simp [h]
            · rw [escChar, if_neg h1, if_neg h2, if_neg h3, if_neg h4] at hc
              simp at hc
              subst hc
              exact ⟨h2, h3, h4⟩
    · exact ih c hc

/-- Entity decoding: the inverse reading of the four XML entities
`escapeXml` produces.  Verification apparatus (not part of the source):
used to state that the formatter's output determines the original
sender names and bodies. -/
def decodeEntities : List Char → List Char
  | [] => []
  | '&' :: 'a' :: 'm' :: 'p' :: ';' :: rest => '&' :: decodeEntities rest
  | '&' :: 'l' :: 't' :: ';' :: rest => '<' :: decodeEntities rest
  | '&' :: 'g' :: 't' :: ';' :: rest => '>' :: decodeEntities rest
  | '&' :: 'q' :: 'u' :: 'o' :: 't' :: ';' :: rest => '"' :: decodeEntities rest
  | c :: rest => c :: decodeEntities rest

theorem decodeEntities_cons_ne (c : Char) (cs : List Char) (h : c ≠ '&') :
    decodeEntities (c :: cs) = c :: decodeEntities cs := by
  rw [decodeEntities.eq_def]
  split
  · next heq => exact absurd heq (by simp)
  · next rest heq =>
    rw [List.cons_eq_cons] at heq
    exact absurd heq.1 h
  · next rest heq =>
    rw [List.cons_eq_cons] at heq
    exact absurd heq.1 h
  · next rest heq =>
    rw [List.cons_eq_cons] at heq
    exact absurd heq.1 h
  · next rest heq =>
    rw [List.cons_eq_cons] at heq
    exact absurd heq.1 h
  · next c' rest heq =>
    rw [List.cons_eq_cons] at heq
    rw [heq.1, heq.2]

theorem decode_escape (l : List Char) : decodeEntities (escapeXmlChars l) = l := by
  induction l with
  | nil => rfl
  | cons c cs ih =>
    rw [escapeXmlChars_cons]
    by_cases h1 : c = '&'
    · subst h1
      show decodeEntities ('&' :: 'a' :: 'm' :: 'p' :: ';' :: escapeXmlChars cs) = _
      simp only [decodeEntities]
      rw [ih]
    · by_cases h2 : c = '<'
      · subst h2
        show decodeEntities ('&' :: 'l' :: 't' :: ';' :: escapeXmlChars cs) = _
        simp only [decodeEntities]
        rw [ih]
      · by_cases h3 : c = '>'
        · subst h3
          show decodeEntities ('&' :: 'g' :: 't' :: ';' :: escapeXmlChars cs) = _
          simp only [decodeEntities]
          rw [ih]
        · by_cases h4 : c = '"'
          · subst h4
            show decodeEntities ('&' :: 'q' :: 'u' :: 'o' :: 't' :: ';' :: escapeXmlChars cs) = _
            simp only [decodeEntities]
            rw [ih]
          · rw [escChar, if_neg h1, if_neg h2, if_neg h3, if_neg h4]
            show decodeEntities (c :: escapeXmlChars cs) = _
            rw [decodeEntities_cons_ne c _ h1, ih]

/-- Split a list at the first occurrence of a stop character: the part
before it and the part after it.  Verification apparatus for the envelope
parser. -/
def splitUntil (stop : Char) : List Char → Option (List Char × List Char)
  | [] => none
  | c :: cs =>
    if c = stop then some ([], cs)
    else
      match splitUntil stop cs with
      | none => none
      | some (a, r) => some (c :: a, r)

/-- Remove an expected literal sequence from the front, failing when it is
not there.  Verification apparatus for the envelope parser. -/
def stripSeq : List Char → List Char → Option (List Char)
  | [], l => some l
  | _ :: _, [] => none
  | p :: ps, c :: cs => if p = c then stripSeq ps cs else none

theorem splitUntil_append (stop : Char) (a : List Char) (hstop : stop ∉ a) (r : List Char) :
    splitUntil stop (a ++ stop :: r) = some (a, r) := by
  induction a with
  | nil => simp [splitUntil]
  | cons c cs ih =>
    have hc : c ≠ stop := fun h => hstop (h ▸ List.mem_cons_self _ _)
    rw [List.cons_append, splitUntil, if_neg hc,
      ih (fun h => hstop (List.mem_cons_of_mem _ h))]

theorem stripSeq_append (p : List Char) : ∀ r, stripSeq p (p ++ r) = some r := by
  induction p with
  | nil => intro r; rfl
  | cons c cs ih => intro r; simp [stripSeq, ih]

/-- One pass of the envelope parser: parse
`(<message sender="S" time="T">B</message> NEWLINE)* </messages>` into the
list of `(sender, time, body)` triples, entity-decoding sender and body.
The fuel argument only forces termination; any fuel above the number of
messages gives the same result. -/
def parseTail : Nat → List Char → Option (List (List Char × List Char × List Char))
  | 0, _ => none
  | fuel + 1, l =>
    if l = "</messages>".data then some []
    else
      (stripSeq "<message sender=\"".data l).bind fun r1 =>
      (splitUntil '"' r1).bind fun sr =>
      (stripSeq " time=\"".data sr.2).bind fun r3 =>
      (splitUntil '"' r3).bind fun tr =>
      (stripSeq ">".data tr.2).bind fun r5 =>
      (splitUntil '<' r5).bind fun br =>
      (stripSeq "/message>\n".data br.2).bind fun r7 =>
      (parseTail fuel r7).map fun items =>
        (decodeEntities sr.1, tr.1, decodeEntities br.1) :: items

/-- Parse a full `formatMessages` envelope back into `(sender, time, body)`
string triples.  Verification apparatus: inverts the context formatter. -/
def parseEnvelope (s : String) : Option (List (String × String × String)) :=
  (stripSeq "<messages>\n".data s.data).bind fun r =>
    if r = '\n' :: "</messages>".data then some []
    else
      (parseTail (r.length + 1) r).map fun items =>
        items.map (fun t => (⟨t.1⟩, ⟨t.2.1⟩, ⟨t.2.2⟩))

/-- The character stream that follows the envelope header: every message
line followed by a newline, then the closing tag. -/
def envTail (messages : List NewMessage) : List Char :=
  (messages.map (fun m => messageLine m ++ ['\n'])).flatten ++ "</messages>".data

theorem envTail_cons (m : NewMessage) (rest : List NewMessage) :
    envTail (m :: rest) = messageLine m ++ '\n' :: envTail rest := by
  simp [envTail]

theorem envTail_length (messages : List NewMessage) :
    messages.length ≤ (envTail messages).length := by
  induction messages with
  | nil => simp [envTail]
  | cons m rest ih =>
    rw [envTail_cons]
    simp only [List.length_cons, List.length_append, List.length_cons]
    omega

theorem escapeXml_data (s : String) : (escapeXml s).data = escapeXmlChars s.data := by
  rw [escapeXml]
  by_cases h : s = ""
  · subst h
    rfl
  · rw [if_neg h]

theorem parseTail_envTail (messages : List NewMessage) :
    ∀ fuel, messages.length < fuel → (∀ m ∈ messages, ('"' : Char) ∉ m.timestamp.data) →
      parseTail fuel (envTail messages) =
        some (messages.map fun m => (m.sender_name.data, m.timestamp.data, m.content.data)) := by
  induction messages with
  | nil =>
    intro fuel hfuel _
    cases fuel with
    | zero => omega
    | succ n =>
      have h0 : envTail [] = "</messages>".data := by simp [envTail]
      rw [h0, parseTail, if_pos rfl]
      simp
  | cons m rest ih =>
    intro fuel hfuel ht
    cases fuel with
    | zero => omega
    | succ n =>
      rw [envTail_cons, parseTail]
      have hne : messageLine m ++ '\n' :: envTail rest ≠ "</messages>".data := by
        intro h
        have hl := congrArg List.length h
        simp [messageLine] at hl
      rw [if_neg hne]
      have hq1 : ('"' : Char) ∉ escapeXmlChars m.sender_name.data :=
        fun hmem => (escapeXmlChars_no_raw _ _ hmem).2.2 rfl
      have hq2 : ('"' : Char) ∉ m.timestamp.data := ht m (List.mem_cons_self _ _)
      have hq3 : ('<' : Char) ∉ escapeXmlChars m.content.data :=
        fun hmem => (escapeXmlChars_no_raw _ _ hmem).1 rfl
      have hform : messageLine m ++ '\n' :: envTail rest =
          "<message sender=\"".data ++
            (escapeXmlChars m.sender_name.data ++ ('"' ::
              (" time=\"".data ++ (m.timestamp.data ++ ('"' ::
                (">".data ++ (escapeXmlChars m.content.data ++ ('<' ::
                  ("/message>\n".data ++ envTail rest))))))))) := by
        simp [messageLine, escapeXml_data, List.append_assoc]
      rw [hform, stripSeq_append]
      simp only [Option.some_bind]
      rw [splitUntil_append _ _ hq1]
      simp only [Option.some_bind]
      rw [stripSeq_append]
      simp only [Option.some_bind]
      rw [splitUntil_append _ _ hq2]
      simp only [Option.some_bind]
      rw [stripSeq_append]
      simp only [Option.some_bind]
      rw [splitUntil_append _ _ hq3]
      simp only [Option.some_bind]
      rw [stripSeq_append]
      simp only [Option.some_bind]
      have hfuel' : rest.length < n := by
        rw [List.length_cons] at hfuel
        omega
      rw [ih n hfuel' (fun x hx => ht x (List.mem_cons_of_mem _ hx))]
      simp only [Option.map_some']
      rw [decode_escape, decode_escape]
      simp

theorem joinLines_envTail (messages : List NewMessage) (hne : messages ≠ []) :
    joinLines (messages.map messageLine) ++ "\n</messages>".data = envTail messages := by
  induction messages with
  | nil => exact absurd rfl hne
  | cons m rest ih =>
    cases rest with
    | nil =>
      show joinLines [messageLine m] ++ _ = _
      rw [joinLines]
      simp [envTail]
    | cons m2 rest2 =>
      show joinLines (messageLine m :: messageLine m2 :: rest2.map messageLine) ++ _ = _
      rw [joinLines]
      rw [List.append_assoc, List.cons_append]
      have hih := ih (by simp)
      rw [show (messageLine m2 :: rest2.map messageLine : List (List Char)) =
        (m2 :: rest2).map messageLine from rfl, hih, envTail_cons]
      rw [envTail_cons, envTail_cons]

/-- Claim C2: the Context Formatter emits a `<messages>` envelope with
exactly one `<message>` element per input message, in the order given,
with sender name and body entity-escaped: parsing the output back
recovers exactly the original (sender, timestamp, body) triples in order,
and the escaped sender/body fragments contain no unescaped `<`, `>` or
`"` at all (every `&` they contain was produced as part of an entity and
is undone by entity decoding, per the parse). -/
theorem formatMessages_roundtrip (messages : List NewMessage)
    (ht : ∀ m ∈ messages, ('"' : Char) ∉ m.timestamp.data) :
    parseEnvelope (formatMessages messages) =
      some (messages.map fun m => (m.sender_name, m.timestamp, m.content)) ∧
    (∀ s : String, ∀ c ∈ (escapeXml s).data, c ≠ '<' ∧ c ≠ '>' ∧ c ≠ '"') := by
  constructor
  · rw [parseEnvelope]
    have hdata : (formatMessages messages).data =
        "<messages>\n".data ++
          (joinLines (messages.map messageLine) ++ "\n</messages>".data) := by
      rw [formatMessages]
      simp [List.append_assoc]
    rw [hdata, stripSeq_append]
    simp only [Option.some_bind]
    cases messages with
    | nil =>
      rw [show joinLines (([] : List NewMessage).map messageLine) ++ "\n</messages>".data =
        '\n' :: "</messages>".data from rfl]
      rw [if_pos rfl]
      simp
    | cons m rest =>
      rw [joinLines_envTail (m :: rest) (by simp)]
      have hne2 : envTail (m :: rest) ≠ '\n' :: "</messages>".data := by
        intro h
        rw [envTail_cons] at h
        have h2 := congrArg List.head? h
        simp [messageLine] at h2
      rw [if_neg hne2]
      have hfuel : (m :: rest).length < (envTail (m :: rest)).length + 1 := by
        have := envTail_length (m :: rest)
        omega
      rw [parseTail_envTail (m :: rest) _ hfuel ht]
      simp only [Option.map_some']
      rw [show ((m :: rest).map fun m => (m.sender_name.data, m.timestamp.data, m.content.data)).map
          (fun t => ((⟨t.1⟩ : String), (⟨t.2.1⟩ : String), (⟨t.2.2⟩ : String))) =
          (m :: rest).map fun m => (m.sender_name, m.timestamp, m.content) from by
        rw [List.map_map]
        rfl]
  · intro s c hc
    rw [escapeXml_data] at hc
    exact escapeXmlChars_no_raw _ _ hc

/-- A message whose sender name and body contain all four XML-significant
characters, for the C2 witness. -/
def msgC2 : NewMessage :=
  { id := "id1", chat_jid := "dc:1", sender := "u1",
    sender_name := "A&<B \"x\"", content := "hello <b>&\"quote\"",
    timestamp := "2025-01-01T00:00:00Z" }

theorem formatMessages_roundtrip_witness :
    parseEnvelope (formatMessages [msgC2]) =
      some [(msgC2.sender_name, msgC2.timestamp, msgC2.content)] :=
  (formatMessages_roundtrip [msgC2] (by decide)).1

/-! ## Discord channel (src/channels/discord.ts)

The adapter's handlers are modelled as pure functions of the event, the
registered-group map, and an environment describing the outcomes of the
awaited I/O (reply fetch, attachment fetches, clock readings).  The
configuration imported from `config.ts` (`ASSISTANT_NAME`,
`TRIGGER_PATTERN`, `MAX_ATTACHMENT_DOWNLOAD_SIZE`) is abstracted as
parameters, as the claims are stated for arbitrary configured values. -/

/-- JS falsy-string defaulting `a || b` (empty string falls through). -/
def jsOr (a b : String) : String := if a = "" then b else a

/-- JS `String.prototype.includes` on character lists. -/
def containsSeq (pat : List Char) : List Char → Bool
  | [] => pat.isEmpty
  | c :: cs => startsWithSeq pat (c :: cs) || containsSeq pat cs

/-- The Discord mention token `<@!botId>` (the `!?` alternative tried
first by the regex `<@!?botId>`). -/
def mentionTokenBang (botId : String) : List Char := "<@!".data ++ botId.data ++ ['>']

/-- The Discord mention token `<@botId>`. -/
def mentionToken (botId : String) : List Char := "<@".data ++ botId.data ++ ['>']

/-- `content.replace(new RegExp(`<@!?botId>`, 'g'), '')`: global removal
of the bot-mention tokens, left to right. -/
def removeMentions (botId : String) (l : List Char) : List Char :=
  match l with
  | [] => []
  | c :: cs =>
    if startsWithSeq (mentionTokenBang botId) (c :: cs) then
      removeMentions botId ((c :: cs).drop (mentionTokenBang botId).length)
    else if startsWithSeq (mentionToken botId) (c :: cs) then
      removeMentions botId ((c :: cs).drop (mentionToken botId).length)
    else c :: removeMentions botId cs
termination_by l.length
decreasing_by
  · simp [mentionTokenBang]
    omega
  · simp [mentionToken]
    omega
  · simp

/-- The configuration values the handlers read from `config.ts`
(not part of src/): the assistant's canonical name, the activation
trigger test `TRIGGER_PATTERN.test`, and the download size cap. -/
structure HandlerConfig where
  assistantName : String
  trig : String → Bool
  maxAttachmentSize : Nat

/-- A raw Discord attachment as the handler reads it (`""` models a
null/absent `contentType` or `name`, which JS `||` treats like absent). -/
structure DiscordAttachment where
  contentType : String
  name : String
  size : Nat
  url : String
deriving DecidableEq, Repr

/-- A raw Discord `MessageCreate` event, with the fields the handler
reads.  `memberDisplayName`/`authorDisplayName` are `""` when absent
(JS `||` chains treat empty and absent alike). -/
structure DiscordMessageEvent where
  authorBot : Bool
  channelId : String
  content : String
  createdAtIso : String
  memberDisplayName : String
  authorDisplayName : String
  authorUsername : String
  authorId : String
  msgId : String
  isGuild : Bool
  guildName : String
  channelName : String
  mentionsBot : Bool
  hasReference : Bool
  attachments : List DiscordAttachment
deriving Repr

/-- Outcomes of the awaited I/O during one `MessageCreate` handling:
whether the client user is available, the resolved author of a replied-to
message (`none` models a failed fetch), one fetch outcome per attachment
download attempt (`some n` = a buffer of `n` bytes, `none` = fetch or
write failure), and the `Date.now()` reading. -/
structure MessageEnv where
  botUserId : Option String
  replyAuthorResolved : Option String
  fetchResults : List (Option Nat)
  nowMs : Nat

/-- What one `MessageCreate` event produces: the metadata report (always
present for non-bot events), the delivered canonical message (only for
registered groups), and the URLs for which a network fetch was attempted. -/
structure InboundResult where
  metadataReported : Option (String × String × String)
  delivered : Option NewMessage
  fetchedUrls : List String
deriving Repr

/-- The `dc:`-prefixed canonical address. -/
def mkJid (channelId : String) : String := "dc:" ++ channelId

/-- `message.member?.displayName || message.author.displayName ||
message.author.username`. -/
def deriveSenderName (ev : DiscordMessageEvent) : String :=
  jsOr ev.memberDisplayName (jsOr ev.authorDisplayName ev.authorUsername)

/-- The conversation label: `guild.name #channel.name` in a guild,
otherwise the sender's display name. -/
def deriveChatName (ev : DiscordMessageEvent) : String :=
  if ev.isGuild then ev.guildName ++ " #" ++ ev.channelName
  else deriveSenderName ev

/-- The mention→trigger translation block of the handler. -/
def translateMentions (assistantName : String) (trig : String → Bool)
    (botUserId : Option String) (mentionsBot : Bool) (content : String) : String :=
  match botUserId with
  | none => content
  | some botId =>
    let isBotMentioned := mentionsBot ||
      containsSeq (mentionToken botId) content.data ||
      containsSeq (mentionTokenBang botId) content.data
    if isBotMentioned then
      let stripped : String := ⟨jsTrim (removeMentions botId content.data)⟩
      if trig stripped then stripped
      else "@" ++ assistantName ++ " " ++ stripped
    else content

/-- The reply-context block: prefix `[Reply to X] ` when the event is a
reply and the referenced message resolves; on a failed fetch the marker
is omitted. -/
def applyReplyContext (replyAuthorResolved : Option String) (hasReference : Bool)
    (content : String) : String :=
  if hasReference then
    match replyAuthorResolved with
    | some author => "[Reply to " ++ author ++ "] " ++ content
    | none => content
  else content

/-- `Math.round(bytes / 1024 / 1024)`: round-half-up to megabytes. -/
def jsRoundMB (n : Nat) : Nat := (n + 524288) / 1048576

/-- The characters `name.replace(/[^a-zA-Z0-9._-]/g, '_')` keeps. -/
def isSafeChar (c : Char) : Bool :=
  (decide ('a' ≤ c) && decide (c ≤ 'z')) ||
  (decide ('A' ≤ c) && decide (c ≤ 'Z')) ||
  (decide ('0' ≤ c) && decide (c ≤ '9')) ||
  decide (c = '.') || decide (c = '_') || decide (c = '-')

/-- `name.replace(/[^a-zA-Z0-9._-]/g, '_')`. -/
def sanitizeName (s : String) : String :=
  ⟨s.data.map (fun c => if isSafeChar c then c else '_')⟩

/-- The too-large placeholder line of the download loop. -/
def tooLargePlaceholder (name : String) (size maxSize : Nat) : String :=
  "[File too large: " ++ name ++ " (" ++ toString (jsRoundMB size) ++ "MB, max " ++
    toString (jsRoundMB maxSize) ++ "MB)]"

/-- The fetch/write-failure placeholder, chosen by coarse media type. -/
def failPlaceholder (contentType name : String) : String :=
  if startsWithSeq "image/".data contentType.data then "[Image: " ++ name ++ "]"
  else if startsWithSeq "video/".data contentType.data then "[Video: " ++ name ++ "]"
  else if startsWithSeq "audio/".data contentType.data then "[Audio: " ++ name ++ "]"
  else "[File: " ++ name ++ "]"

/-- What the attachment loop accumulates: the description lines, the
downloaded attachment records, and the URLs actually fetched. -/
structure AttachmentOutcome where
  descriptions : List String
  downloaded : List MessageAttachment
  fetchedUrls : List String
deriving DecidableEq, Repr

/-- The attachment download loop of the `MessageCreate` handler
(part_001 lines 146–203): oversized attachments get a placeholder and no
fetch; otherwise a fetch is attempted, success yields a record plus a
reference line, failure yields a media-type placeholder. -/
def processAttachments (maxSize nowMs : Nat) :
    List DiscordAttachment → List (Option Nat) → AttachmentOutcome
  | [], _ => ⟨[], [], []⟩
  | att :: rest, fetches =>
    let contentType := jsOr att.contentType "application/octet-stream"
    let name := jsOr att.name "file"
    let isImage := startsWithSeq "image/".data contentType.data
    if att.size > maxSize then
      let tail := processAttachments maxSize nowMs rest fetches
      ⟨tooLargePlaceholder name att.size maxSize :: tail.descriptions,
       tail.downloaded, tail.fetchedUrls⟩
    else
      let relativePath := "inbox/" ++ toString nowMs ++ "-" ++ sanitizeName name
      match fetches with
      | some bufLen :: fetchRest =>
        let tail := processAttachments maxSize nowMs rest fetchRest
        let desc := if isImage then "[Image: " ++ name ++ " → " ++ relativePath ++ "]"
                    else "[File: " ++ name ++ " → " ++ relativePath ++ "]"
        ⟨desc :: tail.descriptions,
         ⟨name, relativePath, contentType, bufLen, isImage⟩ :: tail.downloaded,
         att.url :: tail.fetchedUrls⟩
      | none :: fetchRest =>
        let tail := processAttachments maxSize nowMs rest fetchRest
        ⟨failPlaceholder contentType name :: tail.descriptions,
         tail.downloaded, att.url :: tail.fetchedUrls⟩
      | [] =>
        let tail := processAttachments maxSize nowMs rest []
        ⟨failPlaceholder contentType name :: tail.descriptions,
         tail.downloaded, att.url :: tail.fetchedUrls⟩

/-- `descriptions.join('\n')` as a string. -/
def joinNL : List String → String
  | [] => ""
  | [s] => s
  | s :: s2 :: rest => s ++ "\n" ++ joinNL (s2 :: rest)

/-- `this.opts.registeredGroups()[chatJid]`: map lookup in the
registered-group record. -/
def lookupGroup (groups : List (String × RegisteredGroup)) (jid : String) :
    Option RegisteredGroup :=
  (groups.find? (fun p => p.1 = jid)).map (fun p => p.2)

/-- The `MessageCreate` handler (part_001 lines 60–231): ignore bot
authors; derive address, sender name and label; translate mentions;
resolve reply context; always report metadata; deliver a canonical
message (with downloaded attachments appended) only for registered
groups. -/
def handleMessageCreate (cfg : HandlerConfig) (groups : List (String × RegisteredGroup))
    (env : MessageEnv) (ev : DiscordMessageEvent) : InboundResult :=
  if ev.authorBot then ⟨none, none, []⟩
  else
    let chatJid := mkJid ev.channelId
    let senderName := deriveSenderName ev
    let chatName := deriveChatName ev
    let content1 := translateMentions cfg.assistantName cfg.trig env.botUserId
      ev.mentionsBot ev.content
    let content2 := applyReplyContext env.replyAuthorResolved ev.hasReference content1
    match lookupGroup groups chatJid with
    | none => ⟨some (chatJid, ev.createdAtIso, chatName), none, []⟩
    | some _ =>
      let out := if ev.attachments = [] then ⟨[], [], []⟩
                 else processAttachments cfg.maxAttachmentSize env.nowMs
                   ev.attachments env.fetchResults
      let content3 := if out.descriptions ≠ [] then
                        (if content2 ≠ "" then content2 ++ "\n" ++ joinNL out.descriptions
                         else joinNL out.descriptions)
                      else content2
      ⟨some (chatJid, ev.createdAtIso, chatName),
       some { id := ev.msgId, chat_jid := chatJid, sender := ev.authorId,
              sender_name := senderName, content := content3,
              timestamp := ev.createdAtIso, is_from_me := some false,
              attachments := if out.downloaded ≠ [] then some out.downloaded else none },
       out.fetchedUrls⟩

/-- Claim C3: for every inbound non-bot message event, conversation
metadata (address, timestamp, label) is reported regardless of
registration status, and a full canonical message is constructed and
delivered if and only if the derived address is a registered group;
unregistered conversations get metadata only. -/
theorem messageCreate_metadata_and_registration
    (cfg : HandlerConfig) (groups : List (String × RegisteredGroup))
    (env : MessageEnv) (ev : DiscordMessageEvent)
    (h : ev.authorBot = false) :
    (handleMessageCreate cfg groups env ev).metadataReported =
      some (mkJid ev.channelId, ev.createdAtIso, deriveChatName ev) ∧
    ((handleMessageCreate cfg groups env ev).delivered.isSome ↔
      (lookupGroup groups (mkJid ev.channelId)).isSome) ∧
    (lookupGroup groups (mkJid ev.channelId) = none →
      (handleMessageCreate cfg groups env ev).delivered = none) ∧
    (∀ g, lookupGroup groups (mkJid ev.channelId) = some g →
      ∃ msg, (handleMessageCreate cfg groups env ev).delivered = some msg ∧
        msg.id = ev.msgId ∧ msg.chat_jid = mkJid ev.channelId ∧
        msg.sender = ev.authorId ∧ msg.sender_name = deriveSenderName ev ∧
        msg.timestamp = ev.createdAtIso) := by
  rw [handleMessageCreate, if_neg (by simp [h])]
  cases hl : lookupGroup groups (mkJid ev.channelId) with
  | none => simp [hl]
  | some g => simp [hl]

/-- The handler configuration used by the concrete witnesses: assistant
name `Andy`, a `^@Andy`-style trigger test, and an 8 MiB download cap. -/
def cfgW : HandlerConfig :=
  ⟨"Andy", fun s => startsWithSeq "@Andy".data s.data, 8388608⟩

def groupW : RegisteredGroup :=
  { name := "main", folder := "main", trigger := "@Andy", added_at := "2025-01-01" }

def groupsW : List (String × RegisteredGroup) := [("dc:1", groupW)]

def envW : MessageEnv := ⟨some "99", none, [], 1700000000000⟩

def evW : DiscordMessageEvent :=
  { authorBot := false, channelId := "1", content := "hello",
    createdAtIso := "2025-01-01T00:00:00Z", memberDisplayName := "Alice",
    authorDisplayName := "", authorUsername := "alice", authorId := "55512345",
    msgId := "msg_001", isGuild := true, guildName := "Server",
    channelName := "general", mentionsBot := false, hasReference := false,
    attachments := [] }

theorem messageCreate_metadata_witness :
    (handleMessageCreate cfgW groupsW envW evW).metadataReported =
      some (mkJid evW.channelId, evW.createdAtIso, deriveChatName evW) :=
  (messageCreate_metadata_and_registration cfgW groupsW envW evW rfl).1

theorem processAttachments_all_large (maxSize nowMs : Nat) :
    ∀ (atts : List DiscordAttachment) (fetches : List (Option Nat)),
      (∀ a ∈ atts, a.size > maxSize) →
      (processAttachments maxSize nowMs atts fetches).fetchedUrls = [] ∧
      (processAttachments maxSize nowMs atts fetches).downloaded = [] := by
  intro atts
  induction atts with
  | nil => intro fetches _; exact ⟨rfl, rfl⟩
  | cons a rest ih =>
    intro fetches hall
    rw [processAttachments, if_pos (hall a (List.mem_cons_self _ _))]
    exact ih fetches (fun x hx => hall x (List.mem_cons_of_mem _ hx))

/-- Claim C8: an inbound attachment whose advertised size exceeds the
configured maximum is skipped entirely — no fetch is attempted for it and
nothing is downloaded — a placeholder carrying the size rounded to
megabytes is substituted, and the remaining attachments are processed
exactly as they would have been. -/
theorem attachment_too_large_skips_download
    (maxSize nowMs : Nat) (att : DiscordAttachment) (rest : List DiscordAttachment)
    (fetches : List (Option Nat)) (h : att.size > maxSize) :
    processAttachments maxSize nowMs (att :: rest) fetches =
      ⟨tooLargePlaceholder (jsOr att.name "file") att.size maxSize ::
         (processAttachments maxSize nowMs rest fetches).descriptions,
       (processAttachments maxSize nowMs rest fetches).downloaded,
       (processAttachments maxSize nowMs rest fetches).fetchedUrls⟩ ∧
    tooLargePlaceholder (jsOr att.name "file") att.size maxSize =
      "[File too large: " ++ jsOr att.name "file" ++ " (" ++
        toString (jsRoundMB att.size) ++ "MB, max " ++
        toString (jsRoundMB maxSize) ++ "MB)]" ∧
    ((∀ a ∈ att :: rest, a.size > maxSize) →
      (processAttachments maxSize nowMs (att :: rest) fetches).fetchedUrls = [] ∧
      (processAttachments maxSize nowMs (att :: rest) fetches).downloaded = []) := by
  refine ⟨?_, rfl, ?_⟩
  · rw [processAttachments, if_pos h]
  · intro hall
    exact processAttachments_all_large maxSize nowMs _ fetches hall

/-- An oversized attachment for the C8 witness. -/
def attBig : DiscordAttachment :=
  ⟨"application/zip", "big.zip", 99999999, "http://cdn.example/big.zip"⟩

theorem attachment_too_large_witness :
    (processAttachments 8388608 1700000000000 [attBig] []).fetchedUrls = [] ∧
    (processAttachments 8388608 1700000000000 [attBig] []).downloaded = [] :=
  (attachment_too_large_skips_download 8388608 1700000000000 attBig [] []
    (by decide)).2.2 (by decide)

/-! ## Interaction handler (src/channels/discord.ts, InteractionCreate) -/

/-- The interaction payload: a button (with its component's optional
label, defaulted to the custom id by `??`), a string select with its
chosen values, or any other interaction kind (ignored by the guard). -/
inductive InteractionData where
  | button (customId : String) (componentLabel : Option String)
  | stringSelect (customId : String) (values : List String)
  | other
deriving DecidableEq, Repr

/-- A raw `InteractionCreate` event with the fields the handler reads.
`memberDisplayName = some d` models `interaction.member && 'displayName'
in interaction.member` (used verbatim, even when empty); otherwise the
`user.displayName || user.username` chain applies. -/
structure InteractionEvent where
  data : InteractionData
  channelId : String
  memberDisplayName : Option String
  userDisplayName : String
  userUsername : String
  userId : String
  messageId : String
  interactionId : String
deriving Repr

/-- What one interaction event produces: whether `deferUpdate()` was
called, and the delivered synthetic canonical message, if any. -/
structure InteractionResult where
  deferred : Bool
  delivered : Option NewMessage
deriving Repr

/-- A hexadecimal digit, lower case. -/
def hexDigit (n : Nat) : Char :=
  if n < 10 then Char.ofNat ('0'.toNat + n) else Char.ofNat ('a'.toNat + (n - 10))

/-- JSON string-character escaping as `JSON.stringify` performs it. -/
def jsonEscapeChar (c : Char) : List Char :=
  if c = '"' then ['\\', '"']
  else if c = '\\' then ['\\', '\\']
  else if c = '\x08' then ['\\', 'b']
  else if c = '\x0c' then ['\\', 'f']
  else if c = '\n' then ['\\', 'n']
  else if c = '\r' then ['\\', 'r']
  else if c = '\t' then ['\\', 't']
  else if c.toNat < 32 then
    ['\\', 'u', '0', '0', hexDigit (c.toNat / 16), hexDigit (c.toNat % 16)]
  else [c]

/-- `JSON.stringify` of one string. -/
def jsonString (s : String) : String :=
  ⟨'"' :: (s.data.map jsonEscapeChar).flatten ++ ['"']⟩

/-- `JSON.stringify` of a string array (no whitespace, comma-separated). -/
def jsonStringArray : List String → String
  | [] => "[]"
  | v :: vs => "[" ++ jsonString v ++
      (vs.map (fun s => "," ++ jsonString s)).foldr (fun a b => a ++ b) "" ++ "]"

/-- `interaction.member && 'displayName' in interaction.member ?
member.displayName : (user.displayName || user.username)`. -/
def interactionUserName (ev : InteractionEvent) : String :=
  match ev.memberDisplayName with
  | some d => d
  | none => jsOr ev.userDisplayName ev.userUsername

/-- The synthetic message body templates of the interaction handler. -/
def syntheticBody (assistantName userName messageId : String) :
    InteractionData → String
  | .button customId componentLabel =>
      "@" ++ assistantName ++ " [Button: " ++ customId ++ " \"" ++
        componentLabel.getD customId ++ "\" by " ++ userName ++
        " on message " ++ messageId ++ "]"
  | .stringSelect customId values =>
      "@" ++ assistantName ++ " [Select: " ++ customId ++ " values=" ++
        jsonStringArray values ++ " by " ++ userName ++
        " on message " ++ messageId ++ "]"
  | .other => ""

/-- The `InteractionCreate` handler (part_001 lines 234–281): return
untouched unless the interaction is a button or string select; defer the
update unconditionally; build the synthetic body; deliver it only when
the conversation is a registered group. -/
def handleInteractionCreate (cfg : HandlerConfig)
    (groups : List (String × RegisteredGroup)) (nowIso : String)
    (ev : InteractionEvent) : InteractionResult :=
  if ev.data = .other then ⟨false, none⟩
  else
    let chatJid := mkJid ev.channelId
    let userName := interactionUserName ev
    let content := syntheticBody cfg.assistantName userName ev.messageId ev.data
    match lookupGroup groups chatJid with
    | none => ⟨true, none⟩
    | some _ =>
      ⟨true,
       some { id := ev.interactionId, chat_jid := chatJid, sender := ev.userId,
              sender_name := userName, content := content, timestamp := nowIso,
              is_from_me := some false }⟩

/-- Claim C7: every button or select interaction is acknowledged at the
platform level (`deferUpdate`); on an unregistered conversation it
produces zero canonical messages; the identical interaction on a
registered conversation produces exactly one canonical message whose body
is the canonical trigger phrase followed by the documented structured
description (for a button: control id, label, acting user, attached
message id; for a select: control id, JSON value list, acting user,
attached message id). -/
theorem interaction_ack_and_registration
    (cfg : HandlerConfig) (groups : List (String × RegisteredGroup))
    (nowIso : String) (ev : InteractionEvent) (h : ev.data ≠ .other) :
    (handleInteractionCreate cfg groups nowIso ev).deferred = true ∧
    (lookupGroup groups (mkJid ev.channelId) = none →
      (handleInteractionCreate cfg groups nowIso ev).delivered = none) ∧
    (∀ g, lookupGroup groups (mkJid ev.channelId) = some g →
      (handleInteractionCreate cfg groups nowIso ev).delivered =
        some { id := ev.interactionId, chat_jid := mkJid ev.channelId,
               sender := ev.userId, sender_name := interactionUserName ev,
               content := syntheticBody cfg.assistantName (interactionUserName ev)
                 ev.messageId ev.data,
               timestamp := nowIso, is_from_me := some false }) ∧
    (∀ customId componentLabel, ev.data = .button customId componentLabel →
      syntheticBody cfg.assistantName (interactionUserName ev) ev.messageId ev.data =
        "@" ++ cfg.assistantName ++ " [Button: " ++ customId ++ " \"" ++
          componentLabel.getD customId ++ "\" by " ++ interactionUserName ev ++
          " on message " ++ ev.messageId ++ "]") ∧
    (∀ customId values, ev.data = .stringSelect customId values →
      syntheticBody cfg.assistantName (interactionUserName ev) ev.messageId ev.data =
        "@" ++ cfg.assistantName ++ " [Select: " ++ customId ++ " values=" ++
          jsonStringArray values ++ " by " ++ interactionUserName ev ++
          " on message " ++ ev.messageId ++ "]") := by
  rw [handleInteractionCreate, if_neg h]
  refine ⟨?_, ?_, ?_, ?_, ?_⟩
  · cases hl : lookupGroup groups (mkJid ev.channelId) <;> simp [hl]
  · intro hl
    simp [hl]
  · intro g hl
    simp [hl]
  · intro customId componentLabel hd
    rw [hd, syntheticBody]
  · intro customId values hd
    rw [hd, syntheticBody]

/-- A button interaction on the registered conversation, for the C7
witness. -/
def evBtn : InteractionEvent :=
  { data := .button "approve" (some "Approve"), channelId := "1",
    memberDisplayName := some "Alice", userDisplayName := "", userUsername := "alice",
    userId := "55512345", messageId := "comp_msg_001", interactionId := "int_001" }

theorem interaction_ack_witness :
    (handleInteractionCreate cfgW groupsW "2025-01-01T00:00:00Z" evBtn).deferred = true :=
  (interaction_ack_and_registration cfgW groupsW "2025-01-01T00:00:00Z" evBtn
    (by decide)).1

/-! ## Send-side operations (src/channels/discord.ts)

Each operation is modelled as a pure function of whether the client is
initialized, the outcome of the awaited channel fetch, and its arguments;
the result records either a normal return together with the platform
calls performed, or a thrown error. -/

/-- `IpcButton.style` values from types.ts. -/
inductive ButtonStyleM where
  | primary | secondary | success | danger
deriving DecidableEq, Repr

/-- `IpcButton` from types.ts. -/
structure IpcButton where
  custom_id : String
  label : String
  style : Option ButtonStyleM := none
  disabled : Option Bool := none
deriving DecidableEq, Repr

/-- `IpcSelectOption` from types.ts. -/
structure IpcSelectOption where
  label : String
  value : String
  description : Option String := none
deriving DecidableEq, Repr

/-- `IpcStringSelect` from types.ts. -/
structure IpcStringSelect where
  custom_id : String
  placeholder : Option String := none
  min_values : Option Nat := none
  max_values : Option Nat := none
  options : List IpcSelectOption
  disabled : Option Bool := none
deriving DecidableEq, Repr

/-- `IpcComponent` from types.ts. -/
inductive IpcComponent where
  | button (b : IpcButton)
  | stringSelect (s : IpcStringSelect)
deriving DecidableEq, Repr

/-- `IpcActionRow` from types.ts. -/
structure IpcActionRow where
  components : List IpcComponent
deriving DecidableEq, Repr

/-- The outcome of `this.client.channels.fetch(channelId)`: the promise
rejected, the channel was null or not text-based, or a sendable text
channel came back. -/
inductive ChannelFetch where
  | threw | notText | okText
deriving DecidableEq, Repr

/-- A modelled operation result: a normal return with the list of
platform calls performed, or a thrown error. -/
inductive OpResult (α : Type) where
  | ret (value : α) (calls : List String)
  | thrown (msg : String)
deriving Repr

/-- The slicing loop of `sendMessage`:
`for (i = 0; i < text.length; i += 2000) send(text.slice(i, i + 2000))`.
The fuel argument only forces termination; `chunkChars` supplies enough. -/
def sliceLoop : Nat → List Char → List (List Char)
  | 0, _ => []
  | fuel + 1, l => if l = [] then [] else l.take 2000 :: sliceLoop fuel (l.drop 2000)

/-- The chunks `sendMessage` sends for an over-long text. -/
def chunkChars (l : List Char) : List (List Char) := sliceLoop l.length l

/-- `sendMessage` from discord.ts: a warned no-op without a client or a
text channel; otherwise one send for short texts, the slicing loop for
long ones.  Send rejections are caught, so it never throws. -/
def sendMessageModel (clientInit : Bool) (fetch : ChannelFetch)
    (jid text : String) : OpResult Unit :=
  if !clientInit then .ret () []
  else
    match fetch with
    | .threw => .ret () []
    | .notText => .ret () []
    | .okText =>
      if text.length ≤ 2000 then .ret () [text]
      else .ret () ((chunkChars text.data).map (fun l => (⟨l⟩ : String)))

/-- `sendFile` from discord.ts: same guards as `sendMessage`, one send
with the attachment on success, never throws. -/
def sendFileModel (clientInit : Bool) (fetch : ChannelFetch)
    (jid filePath : String) (caption : Option String) : OpResult Unit :=
  if !clientInit then .ret () []
  else
    match fetch with
    | .threw => .ret () []
    | .notText => .ret () []
    | .okText => .ret () ["sendFile " ++ filePath]

/-- `setTyping` from discord.ts: silent return without a client or when
`isTyping` is false; errors are caught. -/
def setTypingModel (clientInit isTyping : Bool) (fetch : ChannelFetch)
    (jid : String) : OpResult Unit :=
  if !clientInit || !isTyping then .ret () []
  else
    match fetch with
    | .threw => .ret () []
    | .notText => .ret () []
    | .okText => .ret () ["sendTyping"]

/-- `sendComponents` from discord.ts: throws without a client, throws on
fetch failure or a non-text channel (no try/catch), otherwise sends and
returns the platform message id. -/
def sendComponentsModel (clientInit : Bool) (fetch : ChannelFetch) (sentId : String)
    (jid text : String) (components : List IpcActionRow) : OpResult String :=
  if !clientInit then .thrown "Discord client not initialized"
  else
    match fetch with
    | .threw => .thrown "channel fetch rejected"
    | .notText => .thrown ("Discord channel not found or not text-based: " ++ jid)
    | .okText => .ret sentId ["send components"]

/-- `updateComponents` from discord.ts: throws without a client, throws
on fetch failure or a non-text channel, otherwise edits the message. -/
def updateComponentsModel (clientInit : Bool) (fetch : ChannelFetch)
    (jid messageId : String) (text : Option String)
    (components : Option (List IpcActionRow)) : OpResult Unit :=
  if !clientInit then .thrown "Discord client not initialized"
  else
    match fetch with
    | .threw => .thrown "channel fetch rejected"
    | .notText => .thrown ("Discord channel not found or not text-based: " ++ jid)
    | .okText => .ret () ["edit " ++ messageId]

/-- Claim C9 (amended): before `connect()` has completed, `sendMessage`,
`sendFile` and `setTyping` are treated as no-ops — they return without
error and perform no platform call — while `sendComponents` and
`updateComponents` instead throw a `Discord client not initialized`
error. -/
theorem channel_not_ready_behaviour (fetch : ChannelFetch)
    (jid text filePath messageId sentId : String) (caption : Option String)
    (isTyping : Bool) (rows : List IpcActionRow) (utext : Option String)
    (urows : Option (List IpcActionRow)) :
    sendMessageModel false fetch jid text = .ret () [] ∧
    sendFileModel false fetch jid filePath caption = .ret () [] ∧
    setTypingModel false isTyping fetch jid = .ret () [] ∧
    sendComponentsModel false fetch sentId jid text rows =
      .thrown "Discord client not initialized" ∧
    updateComponentsModel false fetch jid messageId utext urows =
      .thrown "Discord client not initialized" :=
  ⟨rfl, rfl, rfl, rfl, rfl⟩

/-- Claim C9, counterexample to the claim as stated: `sendComponents`
invoked before `connect()` (client not initialized) throws rather than
returning as a no-op. -/
theorem sendComponents_not_ready_throws :
    sendComponentsModel false ChannelFetch.okText "sent1" "dc:1" "hi" [] =
      .thrown "Discord client not initialized" := rfl

theorem sliceLoop_join :
    ∀ (fuel : Nat) (l : List Char), l.length ≤ fuel → (sliceLoop fuel l).flatten = l := by
  intro fuel
  induction fuel with
  | zero =>
    intro l h
    have hl : l = [] := List.eq_nil_of_length_eq_zero (Nat.le_zero.mp h)
    subst hl
    rfl
  | succ n ih =>
    intro l h
    rw [sliceLoop]
    by_cases hl : l = []
    · subst hl; simp
    · rw [if_neg hl]
      rw [List.flatten_cons]
      rw [ih (l.drop 2000) (by simp; omega)]
      exact List.take_append_drop _ _

theorem sliceLoop_le (fuel : Nat) :
    ∀ l, ∀ c ∈ sliceLoop fuel l, c.length ≤ 2000 := by
  induction fuel with
  | zero => intro l c hc; simp [sliceLoop] at hc
  | succ n ih =>
    intro l c hc
    rw [sliceLoop] at hc
    by_cases hl : l = []
    · rw [if_pos hl] at hc; simp at hc
    · rw [if_neg hl] at hc
      rcases List.mem_cons.mp hc with hc | hc
      · rw [hc]
        simp
      · exact ih _ c hc

/-- String concatenation of a call list, for stating that the chunks sent
reassemble the original text. -/
def stringJoin : List String → String
  | [] => ""
  | s :: rest => s ++ stringJoin rest

theorem stringJoin_map_mk (ls : List (List Char)) :
    stringJoin (ls.map (fun l => (⟨l⟩ : String))) = ⟨ls.flatten⟩ := by
  induction ls with
  | nil => rfl
  | cons a rest ih =>
    show (⟨a⟩ : String) ++ stringJoin (rest.map (fun l => (⟨l⟩ : String))) = _
    rw [ih]
    rfl

/-- Claim C10: on a connected channel with a sendable text channel,
`sendMessage` sends a text of at most 2000 characters as a single
platform message, and splits a longer text into consecutive chunks of at
most 2000 characters, sent in order, whose concatenation is the original
text. -/
theorem sendMessage_chunking (clientInit : Bool) (fetch : ChannelFetch)
    (jid text : String) (hinit : clientInit = true) (hfetch : fetch = .okText) :
    ∃ chunks, sendMessageModel clientInit fetch jid text = .ret () chunks ∧
      stringJoin chunks = text ∧
      (∀ c ∈ chunks, c.length ≤ 2000) ∧
      (text.length ≤ 2000 → chunks = [text]) := by
  subst hinit hfetch
  rw [sendMessageModel]
  by_cases hlen : text.length ≤ 2000
  · refine ⟨[text], by simp [hlen], ?_, ?_, fun _ => rfl⟩
    · show text ++ "" = text
      cases text with
      | mk data =>
        show String.mk (data ++ "".data) = String.mk data
        rw [show ("" : String).data = ([] : List Char) from rfl, List.append_nil]
    · intro c hc
      rw [List.mem_singleton.mp hc]
      exact hlen
  · refine ⟨(chunkChars text.data).map (fun l => (⟨l⟩ : String)),
      by simp [hlen], ?_, ?_, fun h => absurd h hlen⟩
    · rw [stringJoin_map_mk, chunkChars, sliceLoop_join text.data.length text.data le_rfl]
    · intro c hc
      rcases List.mem_map.mp hc with ⟨l, hl, hcl⟩
      rw [← hcl]
      exact sliceLoop_le _ _ l hl

theorem sendMessage_chunking_witness :
    ∃ chunks, sendMessageModel true ChannelFetch.okText "dc:1" "hi" = .ret () chunks ∧
      stringJoin chunks = "hi" ∧
      (∀ c ∈ chunks, c.length ≤ 2000) ∧
      (("hi" : String).length ≤ 2000 → chunks = ["hi"]) :=
  sendMessage_chunking true ChannelFetch.okText "dc:1" "hi" rfl rfl

end Nanoclaw
